import Mathlib

/-
Verification of the conan-ui backend (src/backend/main.py) against its
natural-language specification.

The Python endpoints are shallowly embedded as pure Lean functions over the
collections that the upstream conan registry client has already fetched:
a flat list of recipe references, the binary package ids attached to each
reference, and a per-reference configuration map.  Python dicts that are
built by insertion are modelled as association lists grown at the tail,
Python sets as lists that are deduplicated when they are sorted, and the
optional query parameters of the endpoints as Option String values, with
Python truthiness made explicit wherever the source relies on it.
-/

/- ===== Python string ordering =====
Python compares strings lexicographically by Unicode code point.  The core
String order of Lean does not reduce inside the kernel, so the comparison is
defined here directly on the underlying character lists. -/

/-- Strict lexicographic code-point order on character lists, as used by the
Python string comparison operators. -/
def lltb : List Char → List Char → Bool
  | [], [] => false
  | [], _ :: _ => true
  | _ :: _, [] => false
  | a :: as, b :: bs =>
    if a.toNat < b.toNat then true
    else if b.toNat < a.toNat then false
    else lltb as bs

/-- Reflexive lexicographic code-point order on character lists. -/
def lleb : List Char → List Char → Bool
  | [], _ => true
  | _ :: _, [] => false
  | a :: as, b :: bs =>
    if a.toNat < b.toNat then true
    else if b.toNat < a.toNat then false
    else lleb as bs

/-- Python strict string comparison, `a < b`. -/
def strLt (a b : String) : Bool := lltb a.data b.data

/-- Python string comparison, `a <= b`. -/
def strLe (a b : String) : Bool := lleb a.data b.data

theorem char_eq_of_toNat_eq {a b : Char} (h : a.toNat = b.toNat) : a = b :=
  Char.ext (UInt32.ext h)

theorem lleb_cons_iff (a b : Char) (as bs : List Char) :
    lleb (a :: as) (b :: bs) = true ↔
      (a.toNat < b.toNat ∨ (a.toNat = b.toNat ∧ lleb as bs = true)) := by
  simp only [lleb]
  by_cases h1 : a.toNat < b.toNat
  · simp [h1]
  · by_cases h2 : b.toNat < a.toNat
    · simp [h1, h2]
      omega
    · have h3 : a.toNat = b.toNat := by omega
      simp [h1, h2, h3]

theorem lltb_cons_iff (a b : Char) (as bs : List Char) :
    lltb (a :: as) (b :: bs) = true ↔
      (a.toNat < b.toNat ∨ (a.toNat = b.toNat ∧ lltb as bs = true)) := by
  simp only [lltb]
  by_cases h1 : a.toNat < b.toNat
  · simp [h1]
  · by_cases h2 : b.toNat < a.toNat
    · simp [h1, h2]
      omega
    · have h3 : a.toNat = b.toNat := by omega
      simp [h1, h2, h3]

theorem lleb_refl (x : List Char) : lleb x x = true := by
  induction x with
  | nil => rfl
  | cons a as ih => simp [lleb_cons_iff, ih]

theorem lleb_total (x y : List Char) : lleb x y = true ∨ lleb y x = true := by
  induction x generalizing y with
  | nil => exact Or.inl rfl
  | cons a as ih =>
    cases y with
    | nil => exact Or.inr rfl
    | cons b bs =>
      rcases Nat.lt_trichotomy a.toNat b.toNat with h | h | h
      · exact Or.inl ((lleb_cons_iff a b as bs).mpr (Or.inl h))
      · rcases ih bs with h2 | h2
        · exact Or.inl ((lleb_cons_iff a b as bs).mpr (Or.inr ⟨h, h2⟩))
        · exact Or.inr ((lleb_cons_iff b a bs as).mpr (Or.inr ⟨h.symm, h2⟩))
      · exact Or.inr ((lleb_cons_iff b a bs as).mpr (Or.inl h))

theorem lleb_trans (x y z : List Char) (h1 : lleb x y = true) (h2 : lleb y z = true) :
    lleb x z = true := by
  induction x generalizing y z with
  | nil => rfl
  | cons a as ih =>
    cases y with
    | nil => simp [lleb] at h1
    | cons b bs =>
      cases z with
      | nil => simp [lleb] at h2
      | cons c cs =>
        rw [lleb_cons_iff] at h1 h2 ⊢
        rcases h1 with h1 | ⟨h1e, h1r⟩
        · rcases h2 with h2 | ⟨h2e, _⟩
          · exact Or.inl (Nat.lt_trans h1 h2)
          · exact Or.inl (h2e ▸ h1)
        · rcases h2 with h2 | ⟨h2e, h2r⟩
          · exact Or.inl (h1e ▸ h2)
          · exact Or.inr ⟨h1e.trans h2e, ih bs cs h1r h2r⟩

theorem lleb_antisymm (x y : List Char) (h1 : lleb x y = true) (h2 : lleb y x = true) :
    x = y := by
  induction x generalizing y with
  | nil =>
    cases y with
    | nil => rfl
    | cons b bs => simp [lleb] at h2
  | cons a as ih =>
    cases y with
    | nil => simp [lleb] at h1
    | cons b bs =>
      rw [lleb_cons_iff] at h1 h2
      rcases h1 with h1 | ⟨h1e, h1r⟩
      · rcases h2 with h2 | ⟨h2e, _⟩
        · omega
        · omega
      · rcases h2 with h2 | ⟨h2e, h2r⟩
        · omega
        · rw [char_eq_of_toNat_eq h1e, ih bs h1r h2r]

theorem lltb_iff (x y : List Char) : lltb x y = true ↔ (lleb x y = true ∧ x ≠ y) := by
  induction x generalizing y with
  | nil =>
    cases y with
    | nil => simp [lltb, lleb]
    | cons b bs => simp [lltb, lleb]
  | cons a as ih =>
    cases y with
    | nil => simp [lltb, lleb]
    | cons b bs =>
      rw [lltb_cons_iff, lleb_cons_iff]
      constructor
      · rintro (h | ⟨he, hr⟩)
        · refine ⟨Or.inl h, ?_⟩
          intro hc
          cases hc
          omega
        · rcases (ih bs).mp hr with ⟨hle, hne⟩
          refine ⟨Or.inr ⟨he, hle⟩, ?_⟩
          intro hc
          cases hc
          exact hne rfl
      · rintro ⟨h | ⟨he, hle⟩, hne⟩
        · exact Or.inl h
        · refine Or.inr ⟨he, (ih bs).mpr ⟨hle, ?_⟩⟩
          intro hc
          exact hne (by rw [char_eq_of_toNat_eq he, hc])

theorem lleb_of_lltb (x y : List Char) (h : lltb x y = true) : lleb x y = true :=
  ((lltb_iff x y).mp h).1

theorem strLe_refl (a : String) : strLe a a = true := lleb_refl a.data

theorem strLe_total (a b : String) : strLe a b = true ∨ strLe b a = true :=
  lleb_total a.data b.data

theorem strLe_trans (a b c : String) (h1 : strLe a b = true) (h2 : strLe b c = true) :
    strLe a c = true := lleb_trans a.data b.data c.data h1 h2

theorem strLe_antisymm (a b : String) (h1 : strLe a b = true) (h2 : strLe b a = true) :
    a = b := String.ext (lleb_antisymm a.data b.data h1 h2)

theorem strLt_iff (a b : String) : strLt a b = true ↔ (strLe a b = true ∧ a ≠ b) := by
  unfold strLt strLe
  rw [lltb_iff]
  constructor
  · rintro ⟨h1, h2⟩
    exact ⟨h1, fun hc => h2 (by rw [hc])⟩
  · rintro ⟨h1, h2⟩
    exact ⟨h1, fun hc => h2 (String.ext hc)⟩

theorem strLe_of_strLt (a b : String) (h : strLt a b = true) : strLe a b = true :=
  lleb_of_lltb a.data b.data h

instance : IsTotal String (fun a b => strLe a b = true) := ⟨strLe_total⟩

instance : IsTrans String (fun a b => strLe a b = true) := ⟨strLe_trans⟩

/- ===== Revision resolver =====
Lines 761 to 763 and 846 to 852 of src/backend/main.py: the revisions that
were gathered for one (name, version) are a Python set, which is sorted with
reverse=True; the latest revision is the first element of the sorted list, or
None when the list is empty. -/

/-- Embedding of sorted(all_revisions, reverse=True) where all_revisions is a
set: deduplicate, sort ascending by the Python string order, reverse. -/
def sorted_revisions (revs : List String) : List String :=
  (List.insertionSort (fun a b => strLe a b = true) revs.dedup).reverse

/-- Embedding of sorted_revisions[0] if sorted_revisions else None. -/
def latest_revision (revs : List String) : Option String :=
  (sorted_revisions revs).head?

/-- C1: for every collection of revision identifier strings, the resolver
returns the de-duplicated revisions in descending lexicographic string order,
with the latest revision equal to the first element (absent exactly when the
collection is empty) and an upper bound of all gathered revisions; in
particular for ["2", "10", "1"] the latest is "2", not "10". -/
theorem revision_resolver_spec (revs : List String) :
    List.Pairwise (fun a b => strLt b a = true) (sorted_revisions revs)
    ∧ (sorted_revisions revs).Nodup
    ∧ (∀ s, s ∈ sorted_revisions revs ↔ s ∈ revs)
    ∧ (latest_revision revs = none ↔ revs = [])
    ∧ (∀ s ∈ revs, ∀ m, latest_revision revs = some m → strLe s m = true)
    ∧ sorted_revisions ["2", "10", "1"] = ["2", "10", "1"]
    ∧ latest_revision ["2", "10", "1"] = some "2" := by
  have hperm := List.perm_insertionSort (fun a b => strLe a b = true) revs.dedup
  have hsorted := List.sorted_insertionSort (fun a b => strLe a b = true) revs.dedup
  have hnodup : (List.insertionSort (fun a b => strLe a b = true) revs.dedup).Nodup :=
    hperm.symm.nodup (List.nodup_dedup revs)
  have hnodupR : (sorted_revisions revs).Nodup := by
    unfold sorted_revisions
    exact List.nodup_reverse.mpr hnodup
  have hmem : ∀ s, s ∈ sorted_revisions revs ↔ s ∈ revs := by
    intro s
    unfold sorted_revisions
    rw [List.mem_reverse, hperm.mem_iff, List.mem_dedup]
  have hpw : List.Pairwise (fun a b => strLt b a = true) (sorted_revisions revs) := by
    unfold sorted_revisions
    rw [List.pairwise_reverse]
    have hand := List.Pairwise.and hsorted hnodup
    exact hand.imp (fun h => (strLt_iff _ _).mpr ⟨h.1, h.2⟩)
  refine ⟨hpw, hnodupR, hmem, ?_, ?_, by decide, by decide⟩
  · unfold latest_revision
    rw [List.head?_eq_none_iff]
    constructor
    · intro h
      have h2 : revs.dedup = [] := by
        have hlen := hperm.length_eq
        have : (List.insertionSort (fun a b => strLe a b = true) revs.dedup) = [] :=
          List.reverse_eq_nil_iff.mp h
        rw [this] at hlen
        exact List.length_eq_zero.mp hlen.symm
      exact (List.dedup_eq_nil revs).mp h2
    · intro h
      subst h
      rfl
  · intro s hs m hm
    unfold latest_revision at hm
    cases hl : sorted_revisions revs with
    | nil => rw [hl] at hm; simp at hm
    | cons m0 t =>
      rw [hl] at hm
      simp only [List.head?_cons, Option.some.injEq] at hm
      subst hm
      have hsl : s ∈ sorted_revisions revs := (hmem s).mpr hs
      rw [hl] at hsl
      rcases List.mem_cons.mp hsl with h | h
      · subst h; exact strLe_refl s
      · have := hpw
        rw [hl] at this
        have hrel := (List.pairwise_cons.mp this).1 s h
        exact strLe_of_strLt s m0 hrel

/- ===== Data model =====
Shapes of the records that the registry client hands to the endpoints and of
the pydantic response models in src/backend/main.py. -/

/-- Conan RecipeReference as returned by package_list.refs(): name/version
with optional user, channel and revision, plus the timestamp the registry
attached to it. -/
structure RecipeReference where
  name : String
  version : String
  user : Option String
  channel : Option String
  revision : Option String
  timestamp : Option Nat
deriving DecidableEq

/-- Conan PkgReference for one binary package of a recipe reference; the back
pointer to its reference is kept by the surrounding RefEntry. -/
structure PkgReference where
  package_id : String
  revision : Option String
  timestamp : Option Nat
deriving DecidableEq

/-- One fetched configuration record with settings, options and requires, the
open string-keyed maps modelled as association lists. -/
structure PkgConfig where
  settings : List (String × String)
  options : List (String × String)
  requires : List String
deriving DecidableEq

/-- Everything the registry client returns for one recipe reference: the
binary package references from package_list.prefs and the configuration map
from conan_api.list.packages_configurations, keyed by package id.  A failed
per-reference configuration fetch is modelled by an empty configs list, which
is exactly what the except branch at lines 789 to 791 of main.py produces. -/
structure RefEntry where
  ref : RecipeReference
  prefs : List PkgReference
  configs : List (String × PkgConfig)
deriving DecidableEq

/-- Canonical string form of a reference, name/version@user/channel#revision,
standing in for str(ref). -/
def refStr (r : RecipeReference) : String :=
  r.name ++ "/" ++ r.version
    ++ (match r.user with
        | none => ""
        | some u => "@" ++ u ++ (match r.channel with | none => "" | some c => "/" ++ c))
    ++ (match r.revision with | none => "" | some rev => "#" ++ rev)

/-- Canonical string form of a package reference, standing in for str(pref). -/
def prefStr (r : RecipeReference) (p : PkgReference) : String :=
  refStr r ++ ":" ++ p.package_id
    ++ (match p.revision with | none => "" | some rev => "#" ++ rev)

/-- Python truthiness of an optional string: None and the empty string are
falsy. -/
def optTruthy : Option String → Bool
  | none => false
  | some s => !(s == "")

/-- Python a or b on optional strings. -/
def pyOr (a b : Option String) : Option String := if optTruthy a then a else b

/-- The pydantic ConanPackageBinary model. -/
structure ConanPackageBinary where
  package_id : String
  user : Option String
  channel : Option String
  revision : Option String
  recipe_revision : Option String
  settings : List (String × String)
  options : List (String × String)
  requires : List String
  created : Option Nat
  path : String
deriving DecidableEq

/-- The pydantic ConanRevisionInfo model. -/
structure ConanRevisionInfo where
  recipe_revisions : List String
  users : List String
  channels : List String
  latest_revision : Option String
deriving DecidableEq

/-- The eight optional query parameters of the binaries endpoint; the same
shape is echoed back as the filtered_by dictionary of the response. -/
structure BinariesQuery where
  recipe_revision : Option String
  user : Option String
  channel : Option String
  os : Option String
  arch : Option String
  compiler : Option String
  compiler_version : Option String
  build_type : Option String
deriving DecidableEq

/-- The pydantic PackageBinariesResponse model. -/
structure PackageBinariesResponse where
  package_name : String
  version : String
  binaries : List ConanPackageBinary
  revision_info : ConanRevisionInfo
  total_binaries : Nat
  filtered_by : BinariesQuery
deriving DecidableEq

/- ===== Binaries endpoint ===== -/

/-- Embedding of sorted(s) on a Python set of strings. -/
def sorted_set (l : List String) : List String :=
  List.insertionSort (fun a b => strLe a b = true) l.dedup

/-- References of package_list.refs() whose name and version match the path
parameters (lines 727 to 735). -/
def all_refs (package_name version : String) (entries : List RefEntry) : List RefEntry :=
  entries.filter (fun e => e.ref.name == package_name && e.ref.version == version)

/-- The truthy revisions gathered into the all_revisions set (lines 730
to 731). -/
def all_revisions (rs : List RefEntry) : List String :=
  (rs.filterMap (fun e => e.ref.revision)).filter (fun s => !(s == ""))

/-- The truthy users gathered into the all_users set (lines 732 to 733). -/
def all_users (rs : List RefEntry) : List String :=
  (rs.filterMap (fun e => e.ref.user)).filter (fun s => !(s == ""))

/-- The truthy channels gathered into the all_channels set (lines 734
to 735). -/
def all_channels (rs : List RefEntry) : List String :=
  (rs.filterMap (fun e => e.ref.channel)).filter (fun s => !(s == ""))

/-- Reference-level filter of lines 770 to 779: the revision must equal the
target revision when one is set, and the user and the channel must equal the
supplied predicates when those were supplied; None means unconstrained while
the empty string is an ordinary value here. -/
def ref_pass (target u c : Option String) (e : RefEntry) : Bool :=
  (if optTruthy target then e.ref.revision == target else true)
  && (match u with | none => true | some _ => e.ref.user == u)
  && (match c with | none => true | some _ => e.ref.channel == c)

/-- settings.get(key): the first matching key of the configuration record. -/
def getSetting (settings : List (String × String)) (k : String) : Option String :=
  (settings.find? (fun kv => kv.1 == k)).map (fun kv => kv.2)

/-- One settings filter step of lines 806 to 816: when the predicate is truthy
and the stored setting differs from it the binary is skipped. -/
def setting_pass (p : Option String) (k : String) (settings : List (String × String)) : Bool :=
  match p with
  | none => true
  | some v => if v == "" then true else getSetting settings k == some v

/-- All five settings filters of lines 806 to 816. -/
def settings_pass (q : BinariesQuery) (settings : List (String × String)) : Bool :=
  setting_pass q.os "os" settings
  && setting_pass q.arch "arch" settings
  && setting_pass q.compiler "compiler" settings
  && setting_pass q.compiler_version "compiler.version" settings
  && setting_pass q.build_type "build_type" settings

/-- pkg_configs lookup by package id with the empty default of lines 796
to 801. -/
def config_for (configs : List (String × PkgConfig)) (pid : String) : PkgConfig :=
  match configs.find? (fun kv => kv.1 == pid) with
  | some kv => kv.2
  | none => ⟨[], [], []⟩

/-- The ConanPackageBinary built at lines 818 to 830. -/
def mk_binary (r : RecipeReference) (p : PkgReference) (cfg : PkgConfig) : ConanPackageBinary :=
  { package_id := p.package_id
    user := r.user
    channel := r.channel
    revision := p.revision
    recipe_revision := r.revision
    settings := cfg.settings
    options := cfg.options
    requires := cfg.requires
    created := r.timestamp
    path := prefStr r p }

/-- The synthesized recipe-only entry of lines 831 to 845. -/
def recipe_only_binary (r : RecipeReference) : ConanPackageBinary :=
  { package_id := "recipe-only"
    user := r.user
    channel := r.channel
    revision := none
    recipe_revision := r.revision
    settings := []
    options := []
    requires := []
    created := r.timestamp
    path := refStr r }

/-- Binaries contributed by one filtered reference (lines 782 to 845): every
binary package that passes the settings filters, or the single synthesized
recipe-only entry when the reference has no binary packages at all. -/
def binaries_for_ref (q : BinariesQuery) (e : RefEntry) : List ConanPackageBinary :=
  if e.prefs.isEmpty then [recipe_only_binary e.ref]
  else
    (e.prefs.filter (fun p => settings_pass q (config_for e.configs p.package_id).settings)).map
      (fun p => mk_binary e.ref p (config_for e.configs p.package_id))

/-- The resolved target revision of line 766: the explicit recipe_revision
when it is truthy, otherwise the resolved latest revision. -/
def target_revision (package_name version : String) (q : BinariesQuery)
    (entries : List RefEntry) : Option String :=
  pyOr q.recipe_revision (latest_revision (all_revisions (all_refs package_name version entries)))

/-- The filtered_refs list of lines 768 to 780. -/
def filtered_refs (package_name version : String) (q : BinariesQuery)
    (entries : List RefEntry) : List RefEntry :=
  (all_refs package_name version entries).filter
    (ref_pass (target_revision package_name version q entries) q.user q.channel)

/-- Embedding of the get_package_binaries endpoint (lines 693 to 870), applied
to the reference entries the registry client fetched for the broad search
pattern name/version@*:*#*. -/
def get_package_binaries (package_name version : String) (q : BinariesQuery)
    (entries : List RefEntry) : PackageBinariesResponse :=
  let refs := all_refs package_name version entries
  if refs.isEmpty then
    { package_name := package_name
      version := version
      binaries := []
      revision_info := ⟨[], [], [], none⟩
      total_binaries := 0
      filtered_by := q }
  else
    let revs := all_revisions refs
    let latest := latest_revision revs
    let binaries := (filtered_refs package_name version q entries).flatMap (binaries_for_ref q)
    { package_name := package_name
      version := version
      binaries := binaries
      revision_info := ⟨sorted_revisions revs, sorted_set (all_users refs),
                        sorted_set (all_channels refs), latest⟩
      total_binaries := binaries.length
      filtered_by := { q with recipe_revision := pyOr q.recipe_revision latest } }

/- ===== Filter monotonicity on the binaries endpoint ===== -/

/-- The query with no predicate supplied at all. -/
def noFilters : BinariesQuery := ⟨none, none, none, none, none, none, none, none⟩

theorem length_flatMap_le_of_sublist {α β : Type} {s l : List α} (h : s.Sublist l)
    (f : α → List β) : (s.flatMap f).length ≤ (l.flatMap f).length := by
  rw [List.length_flatMap, List.length_flatMap]
  exact List.Sublist.sum_le_sum (h.map (List.length ∘ f)) (fun a _ => Nat.zero_le a)

theorem length_flatMap_le_of_pointwise {α β : Type} (l : List α) (f g : α → List β)
    (h : ∀ a ∈ l, (f a).length ≤ (g a).length) :
    (l.flatMap f).length ≤ (l.flatMap g).length := by
  rw [List.length_flatMap, List.length_flatMap]
  exact List.sum_le_sum (fun a ha => h a ha)

theorem binaries_for_ref_length_le (q q2 : BinariesQuery)
    (h : ∀ s, settings_pass q2 s = true → settings_pass q s = true) (e : RefEntry) :
    (binaries_for_ref q2 e).length ≤ (binaries_for_ref q e).length := by
  unfold binaries_for_ref
  cases hp : e.prefs.isEmpty
  · simp only [hp, Bool.false_eq_true, if_false, List.length_map]
    exact (List.monotone_filter_right e.prefs (fun p hp2 => h _ hp2)).length_le
  · simp [hp]

theorem get_binaries_length_le (n v : String) (q q2 : BinariesQuery) (entries : List RefEntry)
    (href : ∀ e, ref_pass (target_revision n v q2 entries) q2.user q2.channel e = true →
                 ref_pass (target_revision n v q entries) q.user q.channel e = true)
    (hset : ∀ s, settings_pass q2 s = true → settings_pass q s = true) :
    (get_package_binaries n v q2 entries).binaries.length ≤
      (get_package_binaries n v q entries).binaries.length := by
  unfold get_package_binaries
  cases hre : (all_refs n v entries).isEmpty
  · simp only [hre, Bool.false_eq_true, if_false]
    have step1 : ((filtered_refs n v q2 entries).flatMap (binaries_for_ref q2)).length ≤
        ((filtered_refs n v q2 entries).flatMap (binaries_for_ref q)).length :=
      length_flatMap_le_of_pointwise _ _ _
        (fun e _ => binaries_for_ref_length_le q q2 hset e)
    have step2 : ((filtered_refs n v q2 entries).flatMap (binaries_for_ref q)).length ≤
        ((filtered_refs n v q entries).flatMap (binaries_for_ref q)).length :=
      length_flatMap_le_of_sublist
        (List.monotone_filter_right (all_refs n v entries) (fun e he => href e he)) _
    exact Nat.le_trans step1 step2
  · simp [hre]

theorem ref_pass_drop_user (t c : Option String) (val : String) (e : RefEntry)
    (h : ref_pass t (some val) c e = true) : ref_pass t none c e = true := by
  simp only [ref_pass, Bool.and_eq_true] at h ⊢
  exact ⟨⟨h.1.1, trivial⟩, h.2⟩

theorem ref_pass_drop_channel (t u : Option String) (val : String) (e : RefEntry)
    (h : ref_pass t u (some val) e = true) : ref_pass t u none e = true := by
  simp only [ref_pass, Bool.and_eq_true] at h ⊢
  exact ⟨h.1, trivial⟩

theorem setting_pass_none (k : String) (s : List (String × String)) :
    setting_pass none k s = true := rfl

theorem settings_pass_noFilters (s : List (String × String)) :
    settings_pass noFilters s = true := rfl

/-- Unfiltered expansion of one reference: all of its binary packages, or the
synthesized recipe-only entry when it has none. -/
def all_binaries_for_ref (e : RefEntry) : List ConanPackageBinary :=
  if e.prefs.isEmpty then [recipe_only_binary e.ref]
  else e.prefs.map (fun p => mk_binary e.ref p (config_for e.configs p.package_id))

theorem binaries_for_ref_noFilters (e : RefEntry) :
    binaries_for_ref noFilters e = all_binaries_for_ref e := by
  unfold binaries_for_ref all_binaries_for_ref
  cases hp : e.prefs.isEmpty
  · simp only [Bool.false_eq_true, if_false]
    have hfe : List.filter
        (fun p => settings_pass noFilters (config_for e.configs p.package_id).settings)
        e.prefs = e.prefs :=
      List.filter_eq_self.mpr
        (fun p _ => settings_pass_noFilters (config_for e.configs p.package_id).settings)
    rw [hfe]
  · simp [hp]

theorem settings_pass_drop_os (q : BinariesQuery) (val : String) (hq : q.os = none)
    (s : List (String × String)) (h : settings_pass { q with os := some val } s = true) :
    settings_pass q s = true := by
  simp only [settings_pass, Bool.and_eq_true] at h ⊢
  obtain ⟨⟨⟨⟨_, h2⟩, h3⟩, h4⟩, h5⟩ := h
  exact ⟨⟨⟨⟨by rw [hq]; rfl, h2⟩, h3⟩, h4⟩, h5⟩

theorem settings_pass_drop_arch (q : BinariesQuery) (val : String) (hq : q.arch = none)
    (s : List (String × String)) (h : settings_pass { q with arch := some val } s = true) :
    settings_pass q s = true := by
  simp only [settings_pass, Bool.and_eq_true] at h ⊢
  obtain ⟨⟨⟨⟨h1, _⟩, h3⟩, h4⟩, h5⟩ := h
  exact ⟨⟨⟨⟨h1, by rw [hq]; rfl⟩, h3⟩, h4⟩, h5⟩

theorem settings_pass_drop_compiler (q : BinariesQuery) (val : String) (hq : q.compiler = none)
    (s : List (String × String)) (h : settings_pass { q with compiler := some val } s = true) :
    settings_pass q s = true := by
  simp only [settings_pass, Bool.and_eq_true] at h ⊢
  obtain ⟨⟨⟨⟨h1, h2⟩, _⟩, h4⟩, h5⟩ := h
  exact ⟨⟨⟨⟨h1, h2⟩, by rw [hq]; rfl⟩, h4⟩, h5⟩

theorem settings_pass_drop_compiler_version (q : BinariesQuery) (val : String)
    (hq : q.compiler_version = none) (s : List (String × String))
    (h : settings_pass { q with compiler_version := some val } s = true) :
    settings_pass q s = true := by
  simp only [settings_pass, Bool.and_eq_true] at h ⊢
  obtain ⟨⟨⟨⟨h1, h2⟩, h3⟩, _⟩, h5⟩ := h
  exact ⟨⟨⟨⟨h1, h2⟩, h3⟩, by rw [hq]; rfl⟩, h5⟩

theorem settings_pass_drop_build_type (q : BinariesQuery) (val : String)
    (hq : q.build_type = none) (s : List (String × String))
    (h : settings_pass { q with build_type := some val } s = true) :
    settings_pass q s = true := by
  simp only [settings_pass, Bool.and_eq_true] at h ⊢
  obtain ⟨⟨⟨⟨h1, h2⟩, h3⟩, h4⟩, _⟩ := h
  exact ⟨⟨⟨⟨h1, h2⟩, h3⟩, h4⟩, by rw [hq]; rfl⟩

/-- C3 amended: adding one of the predicates user, channel, os, arch,
compiler, compiler_version or build_type never increases the number of
binaries retained; supplying zero predicates however does not return the full
binary set: because an absent recipe_revision already defaults to the
resolved latest revision, it returns exactly the unfiltered expansion of the
references whose revision equals that resolved latest revision (all matching
references when no revision is present), and adding the recipe_revision
predicate can therefore increase the number of binaries retained. -/
theorem binaries_filter_monotonic_amended (n v : String) (q : BinariesQuery)
    (entries : List RefEntry) :
    (∀ val : String, q.user = none →
      (get_package_binaries n v { q with user := some val } entries).binaries.length ≤
        (get_package_binaries n v q entries).binaries.length)
    ∧ (∀ val : String, q.channel = none →
      (get_package_binaries n v { q with channel := some val } entries).binaries.length ≤
        (get_package_binaries n v q entries).binaries.length)
    ∧ (∀ val : String, q.os = none →
      (get_package_binaries n v { q with os := some val } entries).binaries.length ≤
        (get_package_binaries n v q entries).binaries.length)
    ∧ (∀ val : String, q.arch = none →
      (get_package_binaries n v { q with arch := some val } entries).binaries.length ≤
        (get_package_binaries n v q entries).binaries.length)
    ∧ (∀ val : String, q.compiler = none →
      (get_package_binaries n v { q with compiler := some val } entries).binaries.length ≤
        (get_package_binaries n v q entries).binaries.length)
    ∧ (∀ val : String, q.compiler_version = none →
      (get_package_binaries n v { q with compiler_version := some val } entries).binaries.length ≤
        (get_package_binaries n v q entries).binaries.length)
    ∧ (∀ val : String, q.build_type = none →
      (get_package_binaries n v { q with build_type := some val } entries).binaries.length ≤
        (get_package_binaries n v q entries).binaries.length)
    ∧ ((get_package_binaries n v noFilters entries).binaries
        = ((all_refs n v entries).filter (fun e =>
              if optTruthy (latest_revision (all_revisions (all_refs n v entries)))
              then e.ref.revision == latest_revision (all_revisions (all_refs n v entries))
              else true)).flatMap all_binaries_for_ref) := by
  refine ⟨?_, ?_, ?_, ?_, ?_, ?_, ?_, ?_⟩
  · intro val hu
    refine get_binaries_length_le n v q { q with user := some val } entries ?_ (fun _ h => h)
    intro e h
    rw [hu]
    exact ref_pass_drop_user _ _ val e h
  · intro val hc
    refine get_binaries_length_le n v q { q with channel := some val } entries ?_ (fun _ h => h)
    intro e h
    rw [hc]
    exact ref_pass_drop_channel _ _ val e h
  · intro val hq
    exact get_binaries_length_le n v q { q with os := some val } entries
      (fun _ h => h) (fun s h => settings_pass_drop_os q val hq s h)
  · intro val hq
    exact get_binaries_length_le n v q { q with arch := some val } entries
      (fun _ h => h) (fun s h => settings_pass_drop_arch q val hq s h)
  · intro val hq
    exact get_binaries_length_le n v q { q with compiler := some val } entries
      (fun _ h => h) (fun s h => settings_pass_drop_compiler q val hq s h)
  · intro val hq
    exact get_binaries_length_le n v q { q with compiler_version := some val } entries
      (fun _ h => h) (fun s h => settings_pass_drop_compiler_version q val hq s h)
  · intro val hq
    exact get_binaries_length_le n v q { q with build_type := some val } entries
      (fun _ h => h) (fun s h => settings_pass_drop_build_type q val hq s h)
  · unfold get_package_binaries
    cases hre : (all_refs n v entries).isEmpty
    · simp only [hre, Bool.false_eq_true, if_false]
      have hfun : binaries_for_ref noFilters = all_binaries_for_ref :=
        funext binaries_for_ref_noFilters
      rw [hfun]
      have hfil : filtered_refs n v noFilters entries
          = (all_refs n v entries).filter (fun e =>
              if optTruthy (latest_revision (all_revisions (all_refs n v entries)))
              then e.ref.revision == latest_revision (all_revisions (all_refs n v entries))
              else true) := by
        unfold filtered_refs
        refine List.filter_congr ?_
        intro e _
        simp only [ref_pass, noFilters, Bool.and_true]
        rfl
      rw [hfil]
    · have hnil : all_refs n v entries = [] := List.isEmpty_iff.mp hre
      simp [hre, hnil]

/-- C3 counterexample: with two matching references carrying revisions a and b
(three binary packages in total), supplying zero predicates retains only the
single binary of the latest revision b, not the full three-element binary
set, and adding the recipe_revision predicate a raises the retained count
from 1 to 2. -/
theorem binaries_filter_monotonic_counterexample :
    ((get_package_binaries "p" "1" ⟨some "a", none, none, none, none, none, none, none⟩
        [⟨⟨"p", "1", none, none, some "a", none⟩, [⟨"id1", none, none⟩, ⟨"id2", none, none⟩], []⟩,
         ⟨⟨"p", "1", none, none, some "b", none⟩, [⟨"id3", none, none⟩], []⟩]).binaries.length = 2)
    ∧ ((get_package_binaries "p" "1" noFilters
        [⟨⟨"p", "1", none, none, some "a", none⟩, [⟨"id1", none, none⟩, ⟨"id2", none, none⟩], []⟩,
         ⟨⟨"p", "1", none, none, some "b", none⟩, [⟨"id3", none, none⟩], []⟩]).binaries.length = 1)
    ∧ ¬((2 : Nat) ≤ 1)
    ∧ (([⟨⟨"p", "1", none, none, some "a", none⟩, [⟨"id1", none, none⟩, ⟨"id2", none, none⟩], []⟩,
         ⟨⟨"p", "1", none, none, some "b", none⟩, [⟨"id3", none, none⟩], []⟩] : List RefEntry).flatMap
          (fun e => e.prefs)).length = 3
    ∧ (1 : Nat) ≠ 3 := by
  decide

/-- Witness for the amended C3 theorem at a concrete input. -/
theorem binaries_filter_monotonic_amended_witness :
    (get_package_binaries "p" "1" { noFilters with user := some "u" }
        [⟨⟨"p", "1", some "u", none, some "a", none⟩, [⟨"id1", none, none⟩], []⟩]).binaries.length ≤
      (get_package_binaries "p" "1" noFilters
        [⟨⟨"p", "1", some "u", none, some "a", none⟩, [⟨"id1", none, none⟩], []⟩]).binaries.length :=
  (binaries_filter_monotonic_amended "p" "1" noFilters
    [⟨⟨"p", "1", some "u", none, some "a", none⟩, [⟨"id1", none, none⟩], []⟩]).1 "u" rfl

theorem get_binaries_eq (n v : String) (q : BinariesQuery) (entries : List RefEntry)
    (hre : (all_refs n v entries).isEmpty = false) :
    (get_package_binaries n v q entries).binaries
      = (filtered_refs n v q entries).flatMap (binaries_for_ref q) := by
  simp [get_package_binaries, hre]

theorem mem_all_refs_not_isEmpty {n v : String} {entries : List RefEntry} {q : BinariesQuery}
    {e : RefEntry} (he : e ∈ filtered_refs n v q entries) :
    (all_refs n v entries).isEmpty = false := by
  have hmem : e ∈ all_refs n v entries := (List.mem_filter.mp he).1
  cases hre : (all_refs n v entries).isEmpty
  · rfl
  · rw [List.isEmpty_iff.mp hre] at hmem
    cases hmem

/-- C7: a binary package id surfaced by the registry for a retained reference
that has no matching entry in the fetched configuration map (in particular
when the whole per-reference configuration fetch failed and left the map
empty) still appears in the unfiltered binaries output, with empty settings,
options and requires, and every binary of every other retained reference is
still delivered alongside it. -/
theorem missing_config_binary_kept (n v : String) (entries : List RefEntry)
    (e : RefEntry) (p : PkgReference)
    (he : e ∈ filtered_refs n v noFilters entries)
    (hp : p ∈ e.prefs)
    (hc : e.configs.find? (fun kv => kv.1 == p.package_id) = none) :
    (mk_binary e.ref p (config_for e.configs p.package_id)) ∈
        (get_package_binaries n v noFilters entries).binaries
    ∧ (mk_binary e.ref p (config_for e.configs p.package_id)).package_id = p.package_id
    ∧ (mk_binary e.ref p (config_for e.configs p.package_id)).settings = []
    ∧ (mk_binary e.ref p (config_for e.configs p.package_id)).options = []
    ∧ (mk_binary e.ref p (config_for e.configs p.package_id)).requires = []
    ∧ (∀ e2 ∈ filtered_refs n v noFilters entries, ∀ b ∈ binaries_for_ref noFilters e2,
        b ∈ (get_package_binaries n v noFilters entries).binaries) := by
  have hre := mem_all_refs_not_isEmpty he
  rw [get_binaries_eq n v noFilters entries hre]
  have hpe : e.prefs.isEmpty = false := by
    cases hpl : e.prefs
    · rw [hpl] at hp
      cases hp
    · rfl
  have hbin : (mk_binary e.ref p (config_for e.configs p.package_id)) ∈
      binaries_for_ref noFilters e := by
    unfold binaries_for_ref
    simp only [hpe, Bool.false_eq_true, if_false]
    exact List.mem_map_of_mem _
      (List.mem_filter.mpr ⟨hp, settings_pass_noFilters _⟩)
  refine ⟨List.mem_flatMap.mpr ⟨e, he, hbin⟩, rfl, ?_, ?_, ?_, ?_⟩
  · simp [mk_binary, config_for, hc]
  · simp [mk_binary, config_for, hc]
  · simp [mk_binary, config_for, hc]
  · intro e2 he2 b hb
    exact List.mem_flatMap.mpr ⟨e2, he2, hb⟩

/-- Witness for C7 at a concrete input: one reference with one binary package
id and an empty (failed) configuration fetch. -/
theorem missing_config_binary_kept_witness :
    (mk_binary ⟨"n", "1", none, none, some "r", none⟩ ⟨"pid", none, none⟩
        (config_for [] "pid")).settings = []
    ∧ (mk_binary ⟨"n", "1", none, none, some "r", none⟩ ⟨"pid", none, none⟩
        (config_for [] "pid")) ∈
        (get_package_binaries "n" "1" noFilters
          [⟨⟨"n", "1", none, none, some "r", none⟩, [⟨"pid", none, none⟩], []⟩]).binaries := by
  have h := missing_config_binary_kept "n" "1"
      [⟨⟨"n", "1", none, none, some "r", none⟩, [⟨"pid", none, none⟩], []⟩]
      ⟨⟨"n", "1", none, none, some "r", none⟩, [⟨"pid", none, none⟩], []⟩
      ⟨"pid", none, none⟩ (by decide) (by decide) (by decide)
  exact ⟨h.2.2.1, h.1⟩

/-- C10: every reference that survives the revision, user and channel filter
and has no binary packages contributes exactly the one synthesized entry with
package id recipe-only, a null package revision and empty settings, options
and requires, and that entry reaches the response no matter which settings
predicates were supplied. -/
theorem recipe_only_entry_preserved (n v : String) (q : BinariesQuery)
    (entries : List RefEntry) (e : RefEntry)
    (he : e ∈ filtered_refs n v q entries) (hp : e.prefs = []) :
    binaries_for_ref q e = [recipe_only_binary e.ref]
    ∧ (recipe_only_binary e.ref).package_id = "recipe-only"
    ∧ (recipe_only_binary e.ref).revision = none
    ∧ (recipe_only_binary e.ref).settings = []
    ∧ (recipe_only_binary e.ref).options = []
    ∧ (recipe_only_binary e.ref).requires = []
    ∧ recipe_only_binary e.ref ∈ (get_package_binaries n v q entries).binaries := by
  have hre := mem_all_refs_not_isEmpty he
  have hone : binaries_for_ref q e = [recipe_only_binary e.ref] := by
    unfold binaries_for_ref
    rw [hp]
    rfl
  refine ⟨hone, rfl, rfl, rfl, rfl, rfl, ?_⟩
  rw [get_binaries_eq n v q entries hre]
  refine List.mem_flatMap.mpr ⟨e, he, ?_⟩
  rw [hone]
  exact List.mem_singleton.mpr rfl

/-- Witness for C10 at a concrete input: a recipe-only reference queried with
an os predicate. -/
theorem recipe_only_entry_preserved_witness :
    recipe_only_binary ⟨"p", "1", some "u", some "c", some "r", none⟩ ∈
      (get_package_binaries "p" "1" ⟨none, none, none, some "Linux", none, none, none, none⟩
        [⟨⟨"p", "1", some "u", some "c", some "r", none⟩, [], []⟩]).binaries := by
  have h := recipe_only_entry_preserved "p" "1"
      ⟨none, none, none, some "Linux", none, none, none, none⟩
      [⟨⟨"p", "1", some "u", some "c", some "r", none⟩, [], []⟩]
      ⟨⟨"p", "1", some "u", some "c", some "r", none⟩, [], []⟩ (by decide) rfl
  exact h.2.2.2.2.2.2

theorem setting_pass_some (vstr k : String) (s : List (String × String))
    (hv : vstr ≠ "") (h : setting_pass (some vstr) k s = true) :
    getSetting s k = some vstr := by
  simp only [setting_pass] at h
  rw [if_neg] at h
  · exact beq_iff_eq.mp h
  · intro hb
    exact hv (beq_iff_eq.mp hb)

/-- C8 amended: for every supplied settings predicate whose value is not the
empty string, every binary built from an actual binary package that reaches
the response carries exactly the predicate value under the targeted settings
key, so a binary whose settings map lacks that key is excluded; the
synthesized recipe-only entry is exempt from the settings predicates, and a
predicate supplied as the empty string imposes no constraint at all. -/
theorem settings_predicate_excludes_missing_amended (n v : String) (q : BinariesQuery)
    (entries : List RefEntry) (b : ConanPackageBinary)
    (hb : b ∈ (get_package_binaries n v q entries).binaries)
    (hnr : b.package_id ≠ "recipe-only") :
    (∀ s, q.os = some s → s ≠ "" → getSetting b.settings "os" = some s)
    ∧ (∀ s, q.arch = some s → s ≠ "" → getSetting b.settings "arch" = some s)
    ∧ (∀ s, q.compiler = some s → s ≠ "" → getSetting b.settings "compiler" = some s)
    ∧ (∀ s, q.compiler_version = some s → s ≠ "" →
        getSetting b.settings "compiler.version" = some s)
    ∧ (∀ s, q.build_type = some s → s ≠ "" → getSetting b.settings "build_type" = some s) := by
  cases hre : (all_refs n v entries).isEmpty
  · rw [get_binaries_eq n v q entries hre] at hb
    obtain ⟨e, he, hbe⟩ := List.mem_flatMap.mp hb
    unfold binaries_for_ref at hbe
    cases hpe : e.prefs.isEmpty
    · rw [hpe] at hbe
      simp only [Bool.false_eq_true, if_false] at hbe
      obtain ⟨p, hpf, hbp⟩ := List.mem_map.mp hbe
      have hsp : settings_pass q (config_for e.configs p.package_id).settings = true :=
        (List.mem_filter.mp hpf).2
      subst hbp
      simp only [settings_pass, Bool.and_eq_true] at hsp
      obtain ⟨⟨⟨⟨h1, h2⟩, h3⟩, h4⟩, h5⟩ := hsp
      refine ⟨?_, ?_, ?_, ?_, ?_⟩
      · intro s hqs hs
        rw [hqs] at h1
        exact setting_pass_some s "os" _ hs h1
      · intro s hqs hs
        rw [hqs] at h2
        exact setting_pass_some s "arch" _ hs h2
      · intro s hqs hs
        rw [hqs] at h3
        exact setting_pass_some s "compiler" _ hs h3
      · intro s hqs hs
        rw [hqs] at h4
        exact setting_pass_some s "compiler.version" _ hs h4
      · intro s hqs hs
        rw [hqs] at h5
        exact setting_pass_some s "build_type" _ hs h5
    · rw [hpe] at hbe
      simp only [if_true] at hbe
      have hbq : b = recipe_only_binary e.ref := List.mem_singleton.mp hbe
      exact absurd (by rw [hbq]; rfl) hnr
  · simp only [get_package_binaries, hre] at hb
    simp at hb

/-- C8 counterexample: an os predicate supplied as the empty string retains a
binary whose settings map lacks the os key instead of excluding it, and an os
predicate supplied as Linux still retains the synthesized recipe-only entry,
whose settings map also lacks the key. -/
theorem settings_predicate_excludes_missing_counterexample :
    ((get_package_binaries "p" "1" ⟨none, none, none, some "", none, none, none, none⟩
        [⟨⟨"p", "1", none, none, some "r", none⟩, [⟨"pid", none, none⟩], []⟩]).binaries.map
        (fun b => (b.package_id, getSetting b.settings "os")))
      = [("pid", none)]
    ∧ ((get_package_binaries "p" "1" ⟨none, none, none, some "Linux", none, none, none, none⟩
        [⟨⟨"p", "1", some "u", some "c", some "r", none⟩, [], []⟩]).binaries.map
        (fun b => (b.package_id, getSetting b.settings "os")))
      = [("recipe-only", none)] := by
  decide

/-- Witness for the amended C8 theorem at a concrete input: an os predicate
Linux and one binary whose fetched settings carry os = Linux. -/
theorem settings_predicate_excludes_missing_amended_witness :
    getSetting (mk_binary ⟨"p", "1", none, none, some "r", none⟩ ⟨"pid", none, none⟩
        (config_for [("pid", ⟨[("os", "Linux")], [], []⟩)] "pid")).settings "os"
      = some "Linux" := by
  have h := settings_predicate_excludes_missing_amended "p" "1"
      ⟨none, none, none, some "Linux", none, none, none, none⟩
      [⟨⟨"p", "1", none, none, some "r", none⟩, [⟨"pid", none, none⟩],
        [("pid", ⟨[("os", "Linux")], [], []⟩)]⟩]
      (mk_binary ⟨"p", "1", none, none, some "r", none⟩ ⟨"pid", none, none⟩
        (config_for [("pid", ⟨[("os", "Linux")], [], []⟩)] "pid"))
      (by decide) (by decide)
  exact h.1 "Linux" rfl (by decide)

/- ===== Versions endpoint ===== -/

/-- The pydantic ConanPackageVariant model. -/
structure ConanPackageVariant where
  user : Option String
  channel : Option String
  path : String
  created : Option Nat
  size : Option Nat
deriving DecidableEq

/-- The pydantic ConanPackageVersion model. -/
structure ConanPackageVersion where
  version : String
  variants : List ConanPackageVariant
  total_variants : Nat
deriving DecidableEq

/-- The pydantic PackageVersionsResponse model. -/
structure PackageVersionsResponse where
  package_name : String
  versions : List ConanPackageVersion
  total_versions : Nat
deriving DecidableEq

/-- The variant record built from one reference at lines 479 to 497 of
main.py; the loop at line 478 builds this identical record once per binary
package of the reference and the branch at line 489 builds it exactly once
when the reference has no binary packages. -/
def variant_of (r : RecipeReference) : ConanPackageVariant :=
  { user := r.user
    channel := r.channel
    path := refStr r
    created := r.timestamp
    size := none }

/-- Appends freshly built variants under the version key of the insertion
ordered versions_dict (lines 471 to 497): the list of an existing key grows
at its tail, a new key is appended at the end of the dict. -/
def add_variants (d : List (String × List ConanPackageVariant)) (ver : String)
    (ws : List ConanPackageVariant) : List (String × List ConanPackageVariant) :=
  match d with
  | [] => [(ver, ws)]
  | (k, l) :: rest =>
    if k == ver then (k, l ++ ws) :: rest else (k, l) :: add_variants rest ver ws

/-- The versions_dict fold of lines 467 to 497: every reference whose name
matches adds one variant per binary package, or one synthesized recipe
variant when it has no binary packages. -/
def versions_dict (package_name : String) (entries : List RefEntry) :
    List (String × List ConanPackageVariant) :=
  entries.foldl
    (fun d e =>
      if e.ref.name == package_name then
        add_variants d e.ref.version
          (if e.prefs.isEmpty then [variant_of e.ref]
           else e.prefs.map (fun _ => variant_of e.ref))
      else d) []

/-- Embedding of the get_package_versions endpoint (lines 448 to 515): group
the matching references by version, then sort the version groups by version
string descending. -/
def get_package_versions (package_name : String) (entries : List RefEntry) :
    PackageVersionsResponse :=
  let versions_list := (versions_dict package_name entries).map
    (fun kv => ({ version := kv.1, variants := kv.2, total_variants := kv.2.length }
      : ConanPackageVersion))
  let sortedL := (List.insertionSort
      (fun a b => strLe a.version b.version = true) versions_list).reverse
  { package_name := package_name
    versions := sortedL
    total_versions := sortedL.length }

theorem sum_add_variants (d : List (String × List ConanPackageVariant)) (ver : String)
    (ws : List ConanPackageVariant) :
    ((add_variants d ver ws).map (fun kv => kv.2.length)).sum
      = ((d.map (fun kv => kv.2.length)).sum) + ws.length := by
  induction d with
  | nil => simp [add_variants]
  | cons kv rest ih =>
    obtain ⟨k, l⟩ := kv
    unfold add_variants
    cases hk : (k == ver)
    · simp only [Bool.false_eq_true, if_false, List.map_cons, List.sum_cons, ih]
      omega
    · simp only [if_true, List.map_cons, List.sum_cons, List.length_append]
      omega

theorem batch_length_eq_max (e : RefEntry) :
    (if e.prefs.isEmpty then [variant_of e.ref]
     else e.prefs.map (fun _ => variant_of e.ref)).length = max 1 e.prefs.length := by
  cases hp : e.prefs with
  | nil => simp
  | cons a t => simp [List.length_map]

theorem sum_versions_fold (package_name : String) (entries : List RefEntry)
    (d : List (String × List ConanPackageVariant)) :
    ((entries.foldl
        (fun d e =>
          if e.ref.name == package_name then
            add_variants d e.ref.version
              (if e.prefs.isEmpty then [variant_of e.ref]
               else e.prefs.map (fun _ => variant_of e.ref))
          else d) d).map (fun kv => kv.2.length)).sum
      = ((d.map (fun kv => kv.2.length)).sum)
        + (((entries.filter (fun e => e.ref.name == package_name)).map
            (fun e => max 1 e.prefs.length)).sum) := by
  induction entries generalizing d with
  | nil => simp
  | cons e rest ih =>
    simp only [List.foldl_cons]
    cases he : (e.ref.name == package_name)
    · simp only [Bool.false_eq_true, if_false]
      rw [ih d, List.filter_cons_of_neg (by simp [he])]
    · simp only [if_true]
      rw [ih _, sum_add_variants, List.filter_cons_of_pos (by simp [he])]
      simp only [List.map_cons, List.sum_cons, batch_length_eq_max]
      omega

/-- C2 amended: for every reference sequence and package name, the sum of
total_variants over the version groups equals the sum over the matching
references of max(1, number of associated binary packages): a reference with
no binaries contributes one synthesized recipe variant, but a reference with
k binaries contributes k identical variants, one per binary, so the sum can
exceed the number of matching references and a version group can repeat the
same (user, channel) pair. -/
theorem total_variants_sum_amended (package_name : String) (entries : List RefEntry) :
    (((get_package_versions package_name entries).versions.map
        (fun g => g.total_variants)).sum)
      = (((entries.filter (fun e => e.ref.name == package_name)).map
          (fun e => max 1 e.prefs.length)).sum) := by
  unfold get_package_versions
  simp only [List.map_reverse, List.sum_reverse]
  have hperm := (List.perm_insertionSort
      (fun a b => strLe a.version b.version = true)
      ((versions_dict package_name entries).map
        (fun kv => ({ version := kv.1, variants := kv.2, total_variants := kv.2.length }
          : ConanPackageVersion)))).map (fun g => g.total_variants)
  rw [hperm.sum_eq, List.map_map]
  have hcomp : ((fun g : ConanPackageVersion => g.total_variants) ∘
      (fun kv : String × List ConanPackageVariant =>
        ({ version := kv.1, variants := kv.2, total_variants := kv.2.length }
          : ConanPackageVersion)))
      = fun kv => kv.2.length := rfl
  rw [hcomp]
  unfold versions_dict
  rw [sum_versions_fold package_name entries []]
  simp

/-- C2 counterexample: one matching reference carrying two binary packages
yields a single version group with total_variants 2 built from two identical
variants, while only one reference matched the name. -/
theorem total_variants_sum_counterexample :
    ((((get_package_versions "foo"
        [⟨⟨"foo", "1.0", none, none, none, none⟩,
          [⟨"a", none, none⟩, ⟨"b", none, none⟩], []⟩]).versions.map
        (fun g => g.total_variants)).sum) = 2)
    ∧ ((([⟨⟨"foo", "1.0", none, none, none, none⟩,
          [⟨"a", none, none⟩, ⟨"b", none, none⟩], []⟩]
          : List RefEntry).filter (fun e => e.ref.name == "foo")).length = 1)
    ∧ ((2 : Nat) ≠ 1)
    ∧ (((get_package_versions "foo"
        [⟨⟨"foo", "1.0", none, none, none, none⟩,
          [⟨"a", none, none⟩, ⟨"b", none, none⟩], []⟩]).versions.map
        (fun g => (g.version, g.variants.length))) = [("1.0", 2)]) := by
  decide

/- ===== Packages list endpoint ===== -/

/-- The pydantic ConanPackageInfo model; latest_version is Optional in the
pydantic model but every record built by list_packages sets it. -/
structure ConanPackageInfo where
  name : String
  latest_version : String
  total_versions : Nat
  created : Option Nat
deriving DecidableEq

/-- The pydantic PackagesListResponse model. -/
structure PackagesListResponse where
  packages : List ConanPackageInfo
  total : Nat
  page : Nat
  per_page : Nat
deriving DecidableEq

/-- Lower casing character by character; stands in for Python str.lower() on
the ASCII package names this backend handles. -/
def strLower (s : String) : String := ⟨s.data.map Char.toLower⟩

/-- Does the pattern occur at the head of the character list. -/
def charsStart : List Char → List Char → Bool
  | _, [] => true
  | [], _ :: _ => false
  | a :: as, b :: bs => a == b && charsStart as bs

/-- Python substring containment, pattern in haystack, on character lists. -/
def charsContain : List Char → List Char → Bool
  | [], pat => charsStart [] pat
  | a :: t, pat => charsStart (a :: t) pat || charsContain t pat

/-- Python substring containment on strings, needle in haystack. -/
def strContains (hay needle : String) : Bool := charsContain hay.data needle.data

/-- One step of the packages_dict fold (lines 397 to 417 of main.py): on the
first sighting of a name the summary is seeded with that record and with a
full scan count of every record sharing the name; on later sightings only
latest_version may be replaced, namely when cmp_gt accepts the new version
string against the stored one.  cmp_gt stands for the version comparison
that line 416 delegates to the external conan Version type. -/
def upsert_package (cmp_gt : String → String → Bool) (refs : List RecipeReference)
    (d : List ConanPackageInfo) (r : RecipeReference) : List ConanPackageInfo :=
  match d with
  | [] => [{ name := r.name
             latest_version := r.version
             total_versions := (refs.filter (fun x => x.name == r.name)).length
             created := r.timestamp }]
  | p :: rest =>
    if p.name == r.name then
      (if cmp_gt r.version p.latest_version then { p with latest_version := r.version }
       else p) :: rest
    else p :: upsert_package cmp_gt refs rest r

/-- The packages_dict built by the fold of lines 397 to 417. -/
def packages_dict (cmp_gt : String → String → Bool) (refs : List RecipeReference) :
    List ConanPackageInfo :=
  refs.foldl (upsert_package cmp_gt refs) []

/-- The q filter of lines 420 to 422. -/
def filtered_packages (cmp_gt : String → String → Bool) (refs : List RecipeReference)
    (q : String) : List ConanPackageInfo :=
  if q == "" then packages_dict cmp_gt refs
  else (packages_dict cmp_gt refs).filter
    (fun p => strContains (strLower p.name) (strLower q))

/-- The case insensitive name sort of line 426. -/
def sorted_packages (cmp_gt : String → String → Bool) (refs : List RecipeReference)
    (q : String) : List ConanPackageInfo :=
  List.insertionSort (fun a b => strLe (strLower a.name) (strLower b.name) = true)
    (filtered_packages cmp_gt refs q)

/-- The paginator of lines 428 to 432: total is the pre-slice length and the
slice is [(page - 1) * per_page, page * per_page) clipped to the bounds. -/
def paginate {α : Type} (xs : List α) (page per_page : Nat) : List α × Nat :=
  ((xs.take ((page - 1) * per_page + per_page)).drop ((page - 1) * per_page), xs.length)

/-- Embedding of the list_packages endpoint (lines 372 to 446). -/
def list_packages (cmp_gt : String → String → Bool) (refs : List RecipeReference)
    (q : String) (page per_page : Nat) : PackagesListResponse :=
  { packages := (paginate (sorted_packages cmp_gt refs q) page per_page).1
    total := (paginate (sorted_packages cmp_gt refs q) page per_page).2
    page := page
    per_page := per_page }

/-- C6: for every already materialized sequence, every 1-based page and every
per_page within [1, 100], the paginator returns exactly the elements of the
slice [(page - 1) * per_page, page * per_page) clipped to the sequence
bounds, an out-of-range page yields the empty slice rather than an error, the
reported total is always the pre-slice length, and the endpoint response is
assembled from exactly this paginator output. -/
theorem paginator_spec {α : Type} (xs : List α) (page per_page : Nat)
    (hpage : 1 ≤ page) (hper1 : 1 ≤ per_page) (hper2 : per_page ≤ 100) :
    (∀ i : Nat, (paginate xs page per_page).1[i]? =
        if i < per_page then xs[(page - 1) * per_page + i]? else none)
    ∧ (paginate xs page per_page).2 = xs.length
    ∧ (xs.length ≤ (page - 1) * per_page → (paginate xs page per_page).1 = [])
    ∧ (∀ (cmp_gt : String → String → Bool) (refs : List RecipeReference) (q2 : String),
        (list_packages cmp_gt refs q2 page per_page).packages =
          (paginate (sorted_packages cmp_gt refs q2) page per_page).1
        ∧ (list_packages cmp_gt refs q2 page per_page).total =
            (sorted_packages cmp_gt refs q2).length) := by
  refine ⟨?_, rfl, ?_, fun cmp_gt refs q2 => ⟨rfl, rfl⟩⟩
  · intro i
    unfold paginate
    rw [List.getElem?_drop, List.getElem?_take]
    by_cases hi : i < per_page
    · rw [if_pos (by omega), if_pos hi]
    · rw [if_neg (by omega), if_neg hi]
  · intro hlen
    unfold paginate
    refine List.drop_eq_nil_of_le ?_
    calc (xs.take ((page - 1) * per_page + per_page)).length
        ≤ xs.length := by
          rw [List.length_take]
          omega
      _ ≤ (page - 1) * per_page := hlen

/-- Witness for C6: scenario D of the specification, page 5 with per_page 20
against a 10 element sequence returns the empty slice and total 10. -/
theorem paginator_spec_witness :
    (paginate (List.range 10) 5 20).1 = []
    ∧ (paginate (List.range 10) 5 20).2 = 10 := by
  have h := paginator_spec (List.range 10) 5 20 (by decide) (by decide) (by decide)
  exact ⟨h.2.2.1 (by decide), h.2.1⟩

theorem upsert_package_invariant (cmp_gt : String → String → Bool)
    (refs : List RecipeReference) (d : List ConanPackageInfo) (r : RecipeReference)
    (hd : ∀ p ∈ d, p.total_versions = (refs.filter (fun x => x.name == p.name)).length) :
    ∀ p ∈ upsert_package cmp_gt refs d r,
      p.total_versions = (refs.filter (fun x => x.name == p.name)).length := by
  induction d with
  | nil =>
    intro p hp
    simp only [upsert_package, List.mem_singleton] at hp
    subst hp
    rfl
  | cons p0 rest ih =>
    intro p hp
    unfold upsert_package at hp
    cases hn : (p0.name == r.name)
    · rw [hn] at hp
      simp only [Bool.false_eq_true, if_false, List.mem_cons] at hp
      rcases hp with hp | hp
      · subst hp
        exact hd p (List.mem_cons_self p rest)
      · exact ih (fun x hx => hd x (List.mem_cons_of_mem p0 hx)) p hp
    · rw [hn] at hp
      simp only [if_true, List.mem_cons] at hp
      rcases hp with hp | hp
      · cases hg : cmp_gt r.version p0.latest_version
        · rw [hg] at hp
          simp only [Bool.false_eq_true, if_false] at hp
          subst hp
          exact hd p (List.mem_cons_self p rest)
        · rw [hg] at hp
          simp only [if_true] at hp
          subst hp
          exact hd p0 (List.mem_cons_self p0 rest)
      · exact hd p (List.mem_cons_of_mem p0 hp)

theorem foldl_upsert_invariant (cmp_gt : String → String → Bool)
    (refs : List RecipeReference) (l : List RecipeReference) (d : List ConanPackageInfo)
    (hd : ∀ p ∈ d, p.total_versions = (refs.filter (fun x => x.name == p.name)).length) :
    ∀ p ∈ l.foldl (upsert_package cmp_gt refs) d,
      p.total_versions = (refs.filter (fun x => x.name == p.name)).length := by
  induction l generalizing d with
  | nil => exact hd
  | cons r rest ih =>
    intro p hp
    rw [List.foldl_cons] at hp
    exact ih (upsert_package cmp_gt refs d r)
      (upsert_package_invariant cmp_gt refs d r hd) p hp

/-- C4 amended: for every package summary in the packages-list response,
total_versions equals the exact number of reference records whose name equals
the package name, counted by the full scan at the first sighting; it is not
an estimate, but it also is not the number of distinct version keys, since a
version recurring under several user, channel or revision combinations is
counted once per record. -/
theorem total_versions_amended (cmp_gt : String → String → Bool)
    (refs : List RecipeReference) (q : String) (page per_page : Nat)
    (p : ConanPackageInfo)
    (hp : p ∈ (list_packages cmp_gt refs q page per_page).packages) :
    p.total_versions = (refs.filter (fun x => x.name == p.name)).length := by
  have h1 : p ∈ sorted_packages cmp_gt refs q := by
    unfold list_packages paginate at hp
    simp only at hp
    exact List.take_subset _ _ (List.drop_subset _ _ hp)
  have h2 : p ∈ filtered_packages cmp_gt refs q := by
    unfold sorted_packages at h1
    exact (List.perm_insertionSort
      (fun a b => strLe (strLower a.name) (strLower b.name) = true)
      (filtered_packages cmp_gt refs q)).subset h1
  have h3 : p ∈ packages_dict cmp_gt refs := by
    unfold filtered_packages at h2
    cases hq : (q == "")
    · rw [hq] at h2
      simp only [Bool.false_eq_true, if_false] at h2
      exact (List.mem_filter.mp h2).1
    · rw [hq] at h2
      simpa using h2
  exact foldl_upsert_invariant cmp_gt refs refs [] (by intro x hx; cases hx) p h3

/-- C4 counterexample: two records that share name a and version 1.0 under
different users produce total_versions 2, while only one distinct version key
was observed for that name. -/
theorem total_versions_counterexample :
    (((list_packages (fun a b => strLt b a)
        [⟨"a", "1.0", some "u1", none, none, none⟩, ⟨"a", "1.0", some "u2", none, none, none⟩]
        "" 1 20).packages.map (fun p => (p.name, p.total_versions))) = [("a", 2)])
    ∧ (((([⟨"a", "1.0", some "u1", none, none, none⟩,
           ⟨"a", "1.0", some "u2", none, none, none⟩]
          : List RecipeReference).filter (fun x => x.name == "a")).map
          (fun x => x.version)).dedup.length = 1)
    ∧ ((2 : Nat) ≠ 1) := by
  decide

/-- Witness for the amended C4 theorem at a concrete input. -/
theorem total_versions_amended_witness :
    (⟨"a", "1.0", 2, none⟩ : ConanPackageInfo).total_versions
      = (([⟨"a", "1.0", some "u1", none, none, none⟩,
           ⟨"a", "1.0", some "u2", none, none, none⟩]
          : List RecipeReference).filter (fun x => x.name == "a")).length :=
  total_versions_amended (fun a b => strLt b a)
    [⟨"a", "1.0", some "u1", none, none, none⟩, ⟨"a", "1.0", some "u2", none, none, none⟩]
    "" 1 20 ⟨"a", "1.0", 2, none⟩ (by decide)

/- ===== Configuration endpoint ===== -/

/-- The two registry operations the configuration endpoint can invoke. -/
inductive RegistryCall where
  | latestRecipeRevision
  | packagesConfigurations
deriving DecidableEq

/-- What the registry would answer for this request: the latest recipe
revision for the reference (absent means not found) and the configuration map
keyed by package id. -/
structure ConfigRegistry where
  latestRev : Option String
  pkgConfigs : List (String × PkgConfig)
deriving DecidableEq

/-- The outcomes the endpoint reports: an HTTP 400 validation error or an
HTTP 404 not-found error. -/
inductive ConfigError where
  | validation (msg : String)
  | notFound (msg : String)
deriving DecidableEq

/-- The pydantic ConanPackageDetail model, restricted to the fields the
endpoint actually fills from the configuration record; the recipe metadata
fields that stay at their defaults are elided. -/
structure ConanPackageDetail where
  name : String
  version : String
  user : Option String
  channel : Option String
  settings : List (String × String)
  options : List (String × String)
  requires : List String
  path : String
deriving DecidableEq

/-- Embedding of the get_package_configuration endpoint (lines 524 to 608),
returning the outcome together with the trace of registry operations that
were performed, in order.  A truthy recipe_revision is used verbatim (line
546); otherwise the latest revision is resolved through the registry first
(lines 549 to 556) and a missing package is a not-found failure.  Only then
is the required package_id checked (lines 567 to 569), and only after that is
the configuration map fetched and searched (lines 571 to 593). -/
def get_package_configuration (reg : ConfigRegistry) (package_name version : String)
    (user channel package_id recipe_revision : Option String) :
    Except ConfigError ConanPackageDetail × List RegistryCall :=
  let resolved : Except ConfigError (Option String) × List RegistryCall :=
    if optTruthy recipe_revision then (Except.ok recipe_revision, [])
    else
      match reg.latestRev with
      | none => (Except.error (ConfigError.notFound "package not found"),
                 [RegistryCall.latestRecipeRevision])
      | some r => (Except.ok (some r), [RegistryCall.latestRecipeRevision])
  match resolved with
  | (Except.error e, calls) => (Except.error e, calls)
  | (Except.ok rev, calls) =>
    match package_id with
    | none =>
      (Except.error (ConfigError.validation
        "package_id parameter is required for package configuration"), calls)
    | some pid =>
      if pid == "" then
        (Except.error (ConfigError.validation
          "package_id parameter is required for package configuration"), calls)
      else
        match reg.pkgConfigs.find? (fun kv => kv.1 == pid) with
        | some kv =>
          (Except.ok { name := package_name
                       version := version
                       user := user
                       channel := channel
                       settings := kv.2.settings
                       options := kv.2.options
                       requires := kv.2.requires
                       path := refStr ⟨package_name, version, user, channel, rev, none⟩ },
           calls ++ [RegistryCall.packagesConfigurations])
        | none =>
          (Except.error (ConfigError.notFound "package binary not found"),
           calls ++ [RegistryCall.packagesConfigurations])

/-- C9 counterexample: a request without package_id and without
recipe_revision performs the latest-revision registry lookup before it is
rejected, so it does reach the registry; and when that lookup finds nothing
the request is rejected as not-found rather than as a validation error. -/
theorem config_missing_package_id_counterexample :
    ((get_package_configuration ⟨some "r", []⟩ "n" "1" none none none none).2
        = [RegistryCall.latestRecipeRevision])
    ∧ ((get_package_configuration ⟨some "r", []⟩ "n" "1" none none none none).1
        = Except.error (ConfigError.validation
            "package_id parameter is required for package configuration"))
    ∧ ((get_package_configuration ⟨none, []⟩ "n" "1" none none none none).1
        = Except.error (ConfigError.notFound "package not found")) :=
  ⟨rfl, rfl, rfl⟩

/-- C9 amended: a request missing the required package_id is always rejected
before the configuration fetch, but not necessarily before every registry
lookup: with a truthy recipe_revision supplied it is rejected as a validation
error with no registry call at all, while without one the latest-revision
lookup is performed first, after which the request is rejected as a
validation error, or as not-found when that lookup finds nothing. -/
theorem config_missing_package_id_amended (reg : ConfigRegistry)
    (package_name version : String) (user channel package_id recipe_revision : Option String)
    (hpid : optTruthy package_id = false) :
    (RegistryCall.packagesConfigurations ∉
        (get_package_configuration reg package_name version user channel
          package_id recipe_revision).2)
    ∧ (optTruthy recipe_revision = true →
        get_package_configuration reg package_name version user channel
            package_id recipe_revision
          = (Except.error (ConfigError.validation
              "package_id parameter is required for package configuration"), []))
    ∧ (optTruthy recipe_revision = false → ∀ r, reg.latestRev = some r →
        get_package_configuration reg package_name version user channel
            package_id recipe_revision
          = (Except.error (ConfigError.validation
              "package_id parameter is required for package configuration"),
             [RegistryCall.latestRecipeRevision]))
    ∧ (optTruthy recipe_revision = false → reg.latestRev = none →
        get_package_configuration reg package_name version user channel
            package_id recipe_revision
          = (Except.error (ConfigError.notFound "package not found"),
             [RegistryCall.latestRecipeRevision])) := by
  have hcase : ∀ rev calls,
      (match package_id with
        | none =>
          (Except.error (ConfigError.validation
            "package_id parameter is required for package configuration"), calls)
        | some pid =>
          if pid == "" then
            (Except.error (ConfigError.validation
              "package_id parameter is required for package configuration"), calls)
          else
            match reg.pkgConfigs.find? (fun kv => kv.1 == pid) with
            | some kv =>
              (Except.ok { name := package_name
                           version := version
                           user := user
                           channel := channel
                           settings := kv.2.settings
                           options := kv.2.options
                           requires := kv.2.requires
                           path := refStr ⟨package_name, version, user, channel, rev, none⟩ },
               calls ++ [RegistryCall.packagesConfigurations])
            | none =>
              (Except.error (ConfigError.notFound "package binary not found"),
               calls ++ [RegistryCall.packagesConfigurations])
        : Except ConfigError ConanPackageDetail × List RegistryCall)
      = (Except.error (ConfigError.validation
          "package_id parameter is required for package configuration"), calls) := by
    intro rev calls
    match hq : package_id with
    | none => rfl
    | some pid =>
      have hb : (pid == "") = true := by
        cases hb2 : (pid == "")
        · simp [optTruthy, hb2] at hpid
        · rfl
      simp [hb]
  constructor
  · unfold get_package_configuration
    cases htr : optTruthy recipe_revision
    · cases hlr : reg.latestRev
      · simp only [htr, Bool.false_eq_true, if_false, hlr]
        decide
      · simp only [htr, Bool.false_eq_true, if_false, hlr, hcase]
        decide
    · simp only [htr, if_true, hcase]
      decide
  refine ⟨?_, ?_, ?_⟩
  · intro htr
    unfold get_package_configuration
    simp only [htr, if_true, hcase]
  · intro htr r hlr
    unfold get_package_configuration
    simp only [htr, Bool.false_eq_true, if_false, hlr, hcase]
  · intro htr hlr
    unfold get_package_configuration
    simp only [htr, Bool.false_eq_true, if_false, hlr]

/-- Witness for the amended C9 theorem at a concrete input. -/
theorem config_missing_package_id_amended_witness :
    get_package_configuration ⟨some "r", []⟩ "n" "1" none none none none
      = (Except.error (ConfigError.validation
          "package_id parameter is required for package configuration"),
         [RegistryCall.latestRecipeRevision]) :=
  (config_missing_package_id_amended ⟨some "r", []⟩ "n" "1" none none none none
    rfl).2.2.1 rfl "r" rfl

/-- Witness for C1 at the concrete collection of the specification. -/
theorem revision_resolver_spec_witness :
    strLe "1" "2" = true ∧ latest_revision ["2", "10", "1"] = some "2" := by
  have h := revision_resolver_spec ["2", "10", "1"]
  exact ⟨h.2.2.2.2.1 "1" (by decide) "2" h.2.2.2.2.2.2, h.2.2.2.2.2.2⟩
